import Mathlib

/-!
Verification of the ChamberCourt game engine and the WinColl example game.

The development shallowly embeds the tile-grid data model and the grid
operations of `chambercourt/game.py`, `chambercourt/screen.py` and
`wincoll/wincoll_game.py`:

* the live tile grid `self._map_tiles` (called `self.map_blocks` in the
  older WinColl revision) is a list of rows of raw tile GIDs (`Nat`),
  indexed `[y][x]`;
* positions are integer pairs `(x, y)`.  In the source they are float
  vectors truncated with `int(...)`; every call site the claims are about
  passes integral coordinates, on which the truncation is the identity;
* the per-level GID table `self._gids` is a function `Tile → Nat`, and the
  tileset "type"-property lookup composed with the game's tile constructor
  (`self.tile_constructor(properties["type"])`) is a function `Nat → Tile`;
* rendering, sounds and file I/O are side effects outside the grid state;
  the pickled save file is modelled as the grid snapshot that
  `save_position` serializes, handed back to `load_position`.
-/

namespace Chambercourt

/-- Static per-level configuration of the generic engine `Game` class:
grid dimensions, the GID table and the three distinguished tiles passed to
`Game.__init__`. -/
structure Game (T : Type) where
  level_width : Nat
  level_height : Nat
  gids : T → Nat
  tileOf : Nat → T
  hero_tile : T
  empty_tile : T
  default_tile : T

/-- The mutable state the claims are about: the live tile grid and the
hero, plus WinColl's `diamonds`, `dead` and `falling` attributes. -/
structure GState where
  map_tiles : List (List Nat)
  hero_pos : Int × Int
  hero_vel : Int × Int
  diamonds : Int
  dead : Bool
  falling : Bool
deriving DecidableEq

/-- Raw read of the tile grid: `self._map_tiles[y][x]`. -/
def GState.rawAt (st : GState) (y x : Nat) : Nat :=
  (st.map_tiles.getD y []).getD x 0

variable {T : Type}

/-- The bounds test `0 <= x < self.level_width and 0 <= y < self.level_height`
shared by `Game.get` and `Game._set`. -/
abbrev Game.InBounds (g : Game T) (pos : Int × Int) : Prop :=
  0 ≤ pos.1 ∧ pos.1 < (g.level_width : Int) ∧ 0 ≤ pos.2 ∧ pos.2 < (g.level_height : Int)

/-- The grid is a `level_height × level_width` rectangle, as guaranteed by
`restart_level` (which derives both from the loaded map's `map_size`). -/
abbrev Game.WF (g : Game T) (st : GState) : Prop :=
  st.map_tiles.length = g.level_height ∧ ∀ row ∈ st.map_tiles, row.length = g.level_width

/-- `Game.get`: anything outside the map is a default tile; a raw value of
0 is a gap, read as the empty tile; otherwise the cell's GID is translated
back to a tile through the tileset's "type" property. -/
def Game.get (g : Game T) (st : GState) (pos : Int × Int) : T :=
  if ¬ g.InBounds pos then g.default_tile
  else
    let block := st.rawAt pos.2.toNat pos.1.toNat
    if block = 0 then g.empty_tile
    else g.tileOf block

/-- `Game._set`: a raw guarded write of the tile's GID into the live grid
(the renderer tile-queue flush it also performs is pure presentation). -/
def Game._set (g : Game T) (st : GState) (pos : Int × Int) (tile : T) : GState :=
  if ¬ g.InBounds pos then st
  else
    { st with
        map_tiles := st.map_tiles.set pos.2.toNat
          ((st.map_tiles.getD pos.2.toNat []).set pos.1.toNat (g.gids tile)) }

/-- `Game.set`: updates the map twice, to allow for transparent tiles —
first the empty tile, then the requested tile. -/
def Game.set (g : Game T) (st : GState) (pos : Int × Int) (tile : T) : GState :=
  g._set (g._set st pos g.empty_tile) pos tile

/-- The scan order of the nested loops `for x in range(self.level_width):
for y in range(self.level_height):` used by `init_game`, `init_physics` and
`unlock`. -/
def allPositions (W H : Nat) : List (Int × Int) :=
  (List.range W).flatMap fun x => (List.range H).map fun y => (Int.ofNat x, Int.ofNat y)

/-- One cell visit of the `init_game` scan: if the cell holds the hero
tile, record the hero's position there and set the cell to empty. -/
def initGameStep [DecidableEq T] (g : Game T) (s : GState) (q : Int × Int) : GState :=
  if g.get s q = g.hero_tile then
    g.set { s with hero_pos := q } q g.empty_tile
  else s

/-- `Game.init_game` (base class): find the hero in the map, record its
position and set the corresponding tile to empty. -/
def Game.init_game [DecidableEq T] (g : Game T) (st : GState) : GState :=
  (allPositions g.level_width g.level_height).foldl (initGameStep g) st

/-- `Game.save_position`: write the hero tile at the hero's position,
serialize the live grid (the second component models the pickled file
contents), then erase the hero marker back to empty. -/
def Game.save_position (g : Game T) (st : GState) : GState × List (List Nat) :=
  let st1 := g.set st st.hero_pos g.hero_tile
  let saved := st1.map_tiles
  (g.set st1 st1.hero_pos g.empty_tile, saved)

/-- `Game.load_position`: if a saved position exists, install it as the
live grid (`set_map`) and re-run `init_game` (re-deriving the hero's
position from the saved hero marker); otherwise nothing is done. -/
def Game.load_position [DecidableEq T] (g : Game T) (st : GState)
    (saved : Option (List (List Nat))) : GState :=
  match saved with
  | none => st
  | some m => g.init_game { st with map_tiles := m }

/-- `Game.try_move` (default rule): the move is legal unless the
destination is the default tile; on success the destination is cleared to
empty.  Returns the Python `bool` together with the state after the call. -/
def Game.try_move [DecidableEq T] (g : Game T) (st : GState) (delta : Int × Int) :
    Bool × GState :=
  let newpos := (st.hero_pos.1 + delta.1, st.hero_pos.2 + delta.2)
  let block := g.get st newpos
  if block ≠ g.default_tile then (true, g.set st newpos g.empty_tile)
  else (false, st)

/-- The move-start block of `Game.run`: when the hero is not already
moving and some displacement is requested, try the horizontal axis first,
else the vertical one; if a move is allowed, lock in the velocity, reset
the subframe counter and count the move.  Operates on and returns
`(state, moving, frame, moves)`. -/
def Game.startMove [DecidableEq T] (g : Game T) (st : GState) (moving : Bool)
    (frame moves : Nat) (dx dy : Int) : GState × Bool × Nat × Nat :=
  if moving = false ∧ (dx, dy) ≠ (0, 0) then
    let attempt :=
      if dx ≠ 0 then
        let r := g.try_move st (dx, 0)
        if r.1 then (((dx, 0) : Int × Int), r.2)
        else if dy ≠ 0 then
          let r2 := g.try_move r.2 (0, dy)
          if r2.1 then (((0, dy) : Int × Int), r2.2) else (((0, 0) : Int × Int), r2.2)
        else (((0, 0) : Int × Int), r.2)
      else if dy ≠ 0 then
        let r2 := g.try_move st (0, dy)
        if r2.1 then (((0, dy) : Int × Int), r2.2) else (((0, 0) : Int × Int), r2.2)
      else (((0, 0) : Int × Int), st)
    if attempt.1 ≠ (0, 0) then
      ({ attempt.2 with hero_vel := attempt.1 }, true, 0, moves + 1)
    else (attempt.2, moving, frame, moves)
  else (st, moving, frame, moves)

/-- `Game.handle_joysticks`: each connected joystick with at least two
axes is modelled by its `(left-right, up-down)` axis pair; an axis past
±0.5 overrides the accumulated unit velocity on that component. -/
def Game.handle_joysticks (axes : List (ℚ × ℚ)) : Int × Int :=
  axes.foldl
    (fun d a =>
      let dx := if a.1 < -(1/2 : ℚ) then (-1 : Int) else if a.1 > 1/2 then 1 else d.1
      let dy := if a.2 < -(1/2 : ℚ) then (-1 : Int) else if a.2 > 1/2 then 1 else d.2
      (dx, dy))
    (0, 0)

/-- `Game.handle_player_controls`: the four direction inputs (each key or
its alternative) produce a unit velocity request per axis; a non-zero
joystick request takes priority over the keyboard. -/
def Game.handle_player_controls (left right up down : Bool) (axes : List (ℚ × ℚ)) :
    Int × Int :=
  let dx := (if left then (-1 : Int) else 0) + (if right then 1 else 0)
  let dy := (if up then (-1 : Int) else 0) + (if down then 1 else 0)
  let j := Game.handle_joysticks axes
  if j ≠ (0, 0) then j else (dx, dy)

/-- The WinColl tile vocabulary: the engine's hero/empty/impassable tiles
plus the six game-specific tiles added by `extend_enum`. -/
inductive WTile where
  | HERO
  | EMPTY
  | WALL
  | SAFE
  | DIAMOND
  | BLOB
  | EARTH
  | ROCK
  | KEY
deriving DecidableEq

/-- A WinColl game: the engine configured with the fixed distinguished
tiles (hero, empty, and the impassable tile as default). -/
def wincollGame (W H : Nat) (gids : WTile → Nat) (tileOf : Nat → WTile) : Game WTile :=
  ⟨W, H, gids, tileOf, WTile.HERO, WTile.EMPTY, WTile.WALL⟩

namespace WincollGame

/-- One cell visit of the `init_physics` scan: a diamond or safe bumps
the diamond counter; the hero marker fixes the start position and is
erased to empty. -/
def initPhysicsStep (g : Game WTile) (s : GState) (q : Int × Int) : GState :=
  let block := g.get s q
  if block = WTile.DIAMOND ∨ block = WTile.SAFE then
    { s with diamonds := s.diamonds + 1 }
  else if block = WTile.HERO then
    g.set { s with hero_pos := q } q WTile.EMPTY
  else s

/-- `WincollGame.init_physics`: count diamonds (and safes) on the level
and find the start position, erasing the hero marker. -/
def init_physics (g : Game WTile) (st : GState) : GState :=
  (allPositions g.level_width g.level_height).foldl (initPhysicsStep g)
    { st with diamonds := 0 }

/-- One cell visit of the `unlock` scan: a safe becomes a diamond. -/
def unlockStep (g : Game WTile) (s : GState) (q : Int × Int) : GState :=
  if g.get s q = WTile.SAFE then g.set s q WTile.DIAMOND else s

/-- `WincollGame.unlock`: turn safes into diamonds. -/
def unlock (g : Game WTile) (st : GState) : GState :=
  (allPositions g.level_width g.level_height).foldl (unlockStep g) st

/-- `WincollGame.can_move`: empty, earth, diamond and key are freely
enterable; a rock needs a purely horizontal move with an empty cell two
steps away (a push); everything else blocks. -/
def can_move (g : Game WTile) (st : GState) (velocity : Int × Int) : Bool :=
  let newpos := (st.hero_pos.1 + velocity.1, st.hero_pos.2 + velocity.2)
  let block := g.get st newpos
  if block = WTile.EMPTY ∨ block = WTile.EARTH ∨ block = WTile.DIAMOND ∨
      block = WTile.KEY then
    true
  else if block = WTile.ROCK then
    let new_rockpos := (st.hero_pos.1 + velocity.1 * 2, st.hero_pos.2 + velocity.2 * 2)
    decide (velocity.2 = 0) && decide (g.get st new_rockpos = WTile.EMPTY)
  else false

/-- `WincollGame.do_move`: react to the completed move — collect a
diamond, unlock the safes, or push a rock — then clear the vacated
destination cell to empty. -/
def do_move (g : Game WTile) (st : GState) : GState :=
  let newpos := (st.hero_pos.1 + st.hero_vel.1, st.hero_pos.2 + st.hero_vel.2)
  let block := g.get st newpos
  let st1 :=
    if block = WTile.DIAMOND then { st with diamonds := st.diamonds - 1 }
    else if block = WTile.KEY then unlock g st
    else if block = WTile.ROCK then
      g.set st (newpos.1 + st.hero_vel.1, newpos.2 + st.hero_vel.2) WTile.ROCK
    else st
  g.set st1 newpos WTile.EMPTY

/-- `WincollGame.can_roll`: a rock can roll to a side if both the side
cell and the cell below it are empty. -/
def can_roll (g : Game WTile) (st : GState) (pos : Int × Int) : Bool :=
  decide (g.get st pos = WTile.EMPTY) &&
    decide (g.get st (pos.1, pos.2 + 1) = WTile.EMPTY)

/-- The `fall` helper of `WincollGame.do_physics`: if the cell below the
landing cell is the hero marker, set the dead flag; vacate the old cell,
place the rock at the new cell, and mark the slide as in progress.  The
`new_fall` flag it raises is returned by the caller (`physStep`). -/
def fall (g : Game WTile) (st : GState) (oldpos newpos : Int × Int) : GState :=
  let st :=
    if g.get st (newpos.1, newpos.2 + 1) = WTile.HERO then { st with dead := true }
    else st
  let st := g.set st oldpos WTile.EMPTY
  let st := g.set st newpos WTile.ROCK
  if st.falling = false then { st with falling := true } else st

/-- One cell visit of the physics scan of `WincollGame.do_physics`: a rock
falls straight down into an empty cell, or rolls off a rock/key/diamond/
blob below it, preferring the left shoulder.  The boolean accumulator is
the `new_fall` flag. -/
def physStep (g : Game WTile) (acc : GState × Bool) (q : Int × Int) : GState × Bool :=
  let (st, nf) := acc
  if st.rawAt q.2.toNat q.1.toNat = g.gids WTile.ROCK then
    let pos := q
    let pos_below := (pos.1, pos.2 + 1)
    let block_below := g.get st pos_below
    if block_below = WTile.EMPTY then
      (fall g st pos pos_below, true)
    else if block_below = WTile.ROCK ∨ block_below = WTile.KEY ∨
        block_below = WTile.DIAMOND ∨ block_below = WTile.BLOB then
      let pos_left := (pos.1 - 1, pos.2)
      if can_roll g st pos_left then
        (fall g st pos (pos_left.1, pos_left.2 + 1), true)
      else
        let pos_right := (pos.1 + 1, pos.2)
        if can_roll g st pos_right then
          (fall g st pos (pos_right.1, pos_right.2 + 1), true)
        else (st, nf)
    else (st, nf)
  else (st, nf)

/-- The iteration order of the physics scan: rows bottom-to-top
(`reversed(list(enumerate(self.map_blocks)))`), cells left-to-right within
a row; cell contents are read from the live, possibly already mutated
grid, exactly as the lazy Python iteration does. -/
def scanPositions (W H : Nat) : List (Int × Int) :=
  (List.range H).reverse.flatMap fun row =>
    (List.range W).map fun col => (Int.ofNat col, Int.ofNat row)

/-- `WincollGame.do_physics`: write the hero marker into the grid for
collision detection, run the falling-rock scan, reset the `falling` flag
if no rock fell, and always erase the hero marker again. -/
def do_physics (g : Game WTile) (st : GState) : GState :=
  let st0 := g.set st st.hero_pos WTile.HERO
  let r := (scanPositions g.level_width g.level_height).foldl (physStep g) (st0, false)
  let st2 := if r.2 = false then { r.1 with falling := false } else r.1
  g.set st2 st2.hero_pos WTile.EMPTY

end WincollGame

/-- A colour with the three 8-bit channels the flash/fade code touches. -/
structure Colour where
  r : Nat
  g : Nat
  b : Nat
deriving DecidableEq

/-- The background-colour state shared by the two revisions of the
presentation code: the current colour and the configured default. -/
structure ScreenState where
  background_colour : Colour
  default_background_colour : Colour
deriving DecidableEq

/-- `Game.flash_background` (`game.py`, the newest engine revision): add
160 to each channel of the *current* background colour, clamped at 255. -/
def Game.flash_background (s : ScreenState) : ScreenState :=
  { s with
      background_colour :=
        ⟨min 255 (s.background_colour.r + 160),
         min 255 (s.background_colour.g + 160),
         min 255 (s.background_colour.b + 160)⟩ }

/-- `Screen.flash_background` (`screen.py`): add 160 to each channel of
the configured *default* background colour, clamped at 255. -/
def Screen.flash_background (s : ScreenState) : ScreenState :=
  { s with
      background_colour :=
        ⟨min 255 (s.default_background_colour.r + 160),
         min 255 (s.default_background_colour.g + 160),
         min 255 (s.default_background_colour.b + 160)⟩ }

/-- One entry of the levels directory listing, as `Path.iterdir` yields
it: its file name and whether it is a regular file. -/
structure DirEntry where
  name : String
  isFile : Bool
deriving DecidableEq

/-- Lexicographic comparison of character sequences by code point —
Python's string ordering, used by `sorted` on the level paths (which all
share the directory prefix, so path order is name order). -/
def lexLeb : List Char → List Char → Bool
  | [], _ => true
  | _ :: _, [] => false
  | c :: a, d :: b =>
      (c.toNat < d.toNat) || (c.toNat = d.toNat && lexLeb a b)

/-- The file-name ordering used for level discovery. -/
def nameLe (a b : String) : Prop :=
  lexLeb a.toList b.toList = true

instance : DecidableRel nameLe := fun a b =>
  inferInstanceAs (Decidable (lexLeb a.toList b.toList = true))

/-- `pathlib.PurePath.suffix`: the substring from the last dot of the
name, provided that dot is neither the first nor the last character;
otherwise the empty string. -/
def pathSuffix (name : String) : String :=
  let cs := name.toList
  match ((List.range cs.length).filter fun i => cs.getD i ' ' = '.').getLast? with
  | some i => if 0 < i ∧ i < cs.length - 1 then String.mk (cs.drop i) else ""
  | none => ""

/-- The filter of `Game.main`'s level discovery: not hidden (the name
does not start with a dot), a regular file, and with the `.tmx` map-file
extension. -/
def isLevelFile (e : DirEntry) : Bool :=
  !(".".toList.isPrefixOf e.name.toList) && e.isFile && (pathSuffix e.name == ".tmx")

/-- Level discovery (`Game.main`): the matching file names of the levels
directory, sorted; `sorted` is modelled by a stable sort under the
lexicographic order `nameLe`. -/
def discoverLevels (entries : List DirEntry) : List String :=
  List.insertionSort nameLe ((entries.filter isLevelFile).map DirEntry.name)

/-- Modelled from the spec: `die` lives in the `warnings_util` module,
which is not among the sources; per §4.2 it prints a program-name-prefixed
message and terminates the process with non-zero status, modelled here as
the error outcome of the surrounding computation. -/
def die (msg : String) : Except String (List String) :=
  Except.error msg

/-- The level-discovery step of `Game.main`: discovery plus the fatal
zero-levels check, yielding the 1-based level sequence on success. -/
def loadLevels (entries : List DirEntry) : Except String (List String) :=
  let levels_files := discoverLevels entries
  if levels_files.length = 0 then die "Could not find any levels"
  else Except.ok levels_files

/-! ### Concrete fixtures used to instantiate the theorems on closed inputs -/

/-- A tiny concrete game configuration over `Nat` tiles (the GID table and
the tileset lookup are both the identity; hero 1, empty 0, default 3). -/
def natGame : Game Nat :=
  ⟨2, 2, id, id, 1, 0, 3⟩

/-- A tiny concrete 2×2 state for `natGame`. -/
def natState : GState :=
  ⟨[[5, 6], [7, 8]], (0, 0), (0, 0), 0, false, false⟩

/-- A concrete GID table for the WinColl tiles. -/
def wgids : WTile → Nat
  | WTile.HERO => 1
  | WTile.EMPTY => 2
  | WTile.WALL => 3
  | WTile.SAFE => 4
  | WTile.DIAMOND => 5
  | WTile.BLOB => 6
  | WTile.EARTH => 7
  | WTile.ROCK => 8
  | WTile.KEY => 9

/-- The tileset lookup inverting `wgids`. -/
def wtileOf : Nat → WTile
  | 1 => WTile.HERO
  | 2 => WTile.EMPTY
  | 4 => WTile.SAFE
  | 5 => WTile.DIAMOND
  | 6 => WTile.BLOB
  | 7 => WTile.EARTH
  | 8 => WTile.ROCK
  | 9 => WTile.KEY
  | _ => WTile.WALL

/-- A concrete 3×3 WinColl game. -/
def wGame : Game WTile :=
  wincollGame 3 3 wgids wtileOf

/-- A concrete 3×3 WinColl state: hero idle at the origin on an empty
cell; one diamond, one earth, one rock, one key, one safe on the board. -/
def wState : GState :=
  ⟨[[2, 5, 3], [2, 2, 7], [8, 9, 4]], (0, 0), (0, 0), 0, false, false⟩

/-- The same 3×3 board with the hero at `(0, 1)`, directly above the rock
at `(0, 2)`. -/
def wStateC6 : GState :=
  ⟨[[2, 5, 3], [2, 2, 7], [8, 9, 4]], (0, 1), (0, 0), 0, false, false⟩

/-! ### Helper lemmas about the grid primitives -/

theorem set_getD_self {α : Type} {l : List α} {i : Nat} (h : i < l.length) (d : α) :
    l.set i (l.getD i d) = l := by
  apply List.ext_getElem?
  intro n
  by_cases hn : n = i
  · subst hn
    rw [List.getElem?_set_self h, List.getD_eq_getElem?_getD, List.getElem?_eq_getElem h]
    rfl
  · exact List.getElem?_set_ne (fun he => hn he.symm)

theorem get_out {g : Game T} {st : GState} {q : Int × Int} (h : ¬ g.InBounds q) :
    g.get st q = g.default_tile := by
  unfold Game.get
  rw [if_pos h]

theorem get_eq_of_map_eq {g : Game T} {st st' : GState}
    (h : st.map_tiles = st'.map_tiles) (q : Int × Int) : g.get st q = g.get st' q := by
  unfold Game.get GState.rawAt
  rw [h]

theorem _set_out {g : Game T} {st : GState} {pos : Int × Int} {t : T}
    (h : ¬ g.InBounds pos) : g._set st pos t = st := by
  unfold Game._set
  rw [if_pos h]

theorem set_out {g : Game T} {st : GState} {pos : Int × Int} {t : T}
    (h : ¬ g.InBounds pos) : g.set st pos t = st := by
  unfold Game.set
  rw [_set_out h, _set_out h]

theorem _set_hero_pos (g : Game T) (st : GState) (pos : Int × Int) (t : T) :
    (g._set st pos t).hero_pos = st.hero_pos := by
  unfold Game._set
  split <;> rfl

theorem _set_hero_vel (g : Game T) (st : GState) (pos : Int × Int) (t : T) :
    (g._set st pos t).hero_vel = st.hero_vel := by
  unfold Game._set
  split <;> rfl

theorem _set_diamonds (g : Game T) (st : GState) (pos : Int × Int) (t : T) :
    (g._set st pos t).diamonds = st.diamonds := by
  unfold Game._set
  split <;> rfl

theorem _set_dead (g : Game T) (st : GState) (pos : Int × Int) (t : T) :
    (g._set st pos t).dead = st.dead := by
  unfold Game._set
  split <;> rfl

theorem _set_falling (g : Game T) (st : GState) (pos : Int × Int) (t : T) :
    (g._set st pos t).falling = st.falling := by
  unfold Game._set
  split <;> rfl

theorem set_hero_pos (g : Game T) (st : GState) (pos : Int × Int) (t : T) :
    (g.set st pos t).hero_pos = st.hero_pos := by
  unfold Game.set
  rw [_set_hero_pos, _set_hero_pos]

theorem set_hero_vel (g : Game T) (st : GState) (pos : Int × Int) (t : T) :
    (g.set st pos t).hero_vel = st.hero_vel := by
  unfold Game.set
  rw [_set_hero_vel, _set_hero_vel]

theorem set_diamonds (g : Game T) (st : GState) (pos : Int × Int) (t : T) :
    (g.set st pos t).diamonds = st.diamonds := by
  unfold Game.set
  rw [_set_diamonds, _set_diamonds]

theorem set_dead (g : Game T) (st : GState) (pos : Int × Int) (t : T) :
    (g.set st pos t).dead = st.dead := by
  unfold Game.set
  rw [_set_dead, _set_dead]

theorem set_falling (g : Game T) (st : GState) (pos : Int × Int) (t : T) :
    (g.set st pos t).falling = st.falling := by
  unfold Game.set
  rw [_set_falling, _set_falling]

theorem rowlen_of_WF {g : Game T} {st : GState} (hwf : g.WF st) {y : Nat}
    (hy : y < st.map_tiles.length) :
    (st.map_tiles.getD y []).length = g.level_width := by
  rw [List.getD_eq_getElem?_getD, List.getElem?_eq_getElem hy]
  exact hwf.2 _ (List.getElem_mem hy)

theorem rawAt_set_self {g : Game T} {st : GState} {pos : Int × Int} {t : T}
    (hwf : g.WF st) (hin : g.InBounds pos) :
    (g._set st pos t).rawAt pos.2.toNat pos.1.toNat = g.gids t := by
  obtain ⟨hx0, hxw, hy0, hyh⟩ := hin
  have hy : pos.2.toNat < st.map_tiles.length := by omega
  have hx : pos.1.toNat < (st.map_tiles.getD pos.2.toNat []).length := by
    rw [rowlen_of_WF hwf hy]
    omega
  rw [List.getD_eq_getElem?_getD] at hx
  unfold Game._set
  rw [if_neg (not_not_intro ⟨hx0, hxw, hy0, hyh⟩)]
  unfold GState.rawAt
  simp only [List.getD_eq_getElem?_getD]
  rw [List.getElem?_set_self hy, Option.getD_some, List.getElem?_set_self hx,
    Option.getD_some]

theorem rawAt_set_ne {g : Game T} {st : GState} {pos : Int × Int} {t : T} {y x : Nat}
    (h : y ≠ pos.2.toNat ∨ x ≠ pos.1.toNat) :
    (g._set st pos t).rawAt y x = st.rawAt y x := by
  unfold Game._set
  split
  · rfl
  · unfold GState.rawAt
    simp only [List.getD_eq_getElem?_getD]
    by_cases hy : y = pos.2.toNat
    · subst hy
      have hx : x ≠ pos.1.toNat := by tauto
      by_cases hlen : pos.2.toNat < st.map_tiles.length
      · rw [List.getElem?_set_self hlen, Option.getD_some,
          List.getElem?_set_ne (fun he => hx he.symm)]
      · rw [List.set_eq_of_length_le (by omega)]
    · rw [List.getElem?_set_ne (fun he => hy he.symm)]

theorem WF__set {g : Game T} {st : GState} (pos : Int × Int) (t : T) (hwf : g.WF st) :
    g.WF (g._set st pos t) := by
  obtain ⟨hlen, hrow⟩ := hwf
  unfold Game._set
  split
  · exact ⟨hlen, hrow⟩
  · refine ⟨by simpa using hlen, ?_⟩
    intro row hr
    rcases List.mem_or_eq_of_mem_set hr with h | h
    · exact hrow _ h
    · subst h
      rw [List.length_set]
      rename_i hb
      rw [not_not] at hb
      obtain ⟨hx0, hxw, hy0, hyh⟩ := hb
      have hy : pos.2.toNat < st.map_tiles.length := by omega
      exact rowlen_of_WF ⟨hlen, hrow⟩ hy

theorem WF_set {g : Game T} {st : GState} (pos : Int × Int) (t : T) (hwf : g.WF st) :
    g.WF (g.set st pos t) :=
  WF__set pos t (WF__set pos g.empty_tile hwf)

theorem get__set_self {g : Game T} {st : GState} {pos : Int × Int} {t : T}
    (hwf : g.WF st) (hin : g.InBounds pos) :
    g.get (g._set st pos t) pos =
      if g.gids t = 0 then g.empty_tile else g.tileOf (g.gids t) := by
  unfold Game.get
  rw [if_neg (not_not_intro hin)]
  simp only
  rw [rawAt_set_self hwf hin]

theorem get__set_ne {g : Game T} {st : GState} {pos q : Int × Int} {t : T}
    (hq : q ≠ pos) : g.get (g._set st pos t) q = g.get st q := by
  by_cases hb : g.InBounds q
  · by_cases hp : g.InBounds pos
    · have hraw : (g._set st pos t).rawAt q.2.toNat q.1.toNat =
          st.rawAt q.2.toNat q.1.toNat := by
        apply rawAt_set_ne
        obtain ⟨ha1, ha2, ha3, ha4⟩ := hb
        obtain ⟨hb1, hb2, hb3, hb4⟩ := hp
        by_cases h1 : q.1 = pos.1
        · have h2 : q.2 ≠ pos.2 := fun h2 => hq (Prod.ext h1 h2)
          left
          omega
        · right
          omega
      unfold Game.get
      rw [if_neg (not_not_intro hb), if_neg (not_not_intro hb)]
      simp only [hraw]
    · rw [_set_out hp]
  · rw [get_out hb, get_out hb]

theorem get_set_ne {g : Game T} {st : GState} {pos q : Int × Int} {t : T}
    (hq : q ≠ pos) : g.get (g.set st pos t) q = g.get st q := by
  unfold Game.set
  rw [get__set_ne hq, get__set_ne hq]

theorem get_set_self {g : Game T} {st : GState} {pos : Int × Int} {t : T}
    (hwf : g.WF st) (hin : g.InBounds pos) (h0 : g.gids t ≠ 0)
    (hrt : g.tileOf (g.gids t) = t) : g.get (g.set st pos t) pos = t := by
  unfold Game.set
  rw [get__set_self (WF__set pos g.empty_tile hwf) hin, if_neg h0, hrt]

theorem _set_set {g : Game T} (st : GState) (pos : Int × Int) (a b : T) :
    g._set (g._set st pos a) pos b = g._set st pos b := by
  by_cases h : g.InBounds pos
  · unfold Game._set
    rw [if_neg (not_not_intro h), if_neg (not_not_intro h), if_neg (not_not_intro h)]
    simp only [List.getD_eq_getElem?_getD]
    by_cases hlen : pos.2.toNat < st.map_tiles.length
    · rw [List.getElem?_set_self hlen, Option.getD_some, List.set_set, List.set_set]
    · rw [List.set_eq_of_length_le (by simp only [List.length_set]; omega),
        List.set_eq_of_length_le (by omega), List.set_eq_of_length_le (by omega)]
  · rw [_set_out h, _set_out h, _set_out h]

theorem set_set {g : Game T} (st : GState) (pos : Int × Int) (a b : T) :
    g.set (g.set st pos a) pos b = g.set st pos b := by
  unfold Game.set
  simp only [_set_set]

theorem _set_self_of_raw {g : Game T} {st : GState} {pos : Int × Int} {t : T}
    (hwf : g.WF st) (hin : g.InBounds pos)
    (hraw : st.rawAt pos.2.toNat pos.1.toNat = g.gids t) :
    g._set st pos t = st := by
  obtain ⟨hx0, hxw, hy0, hyh⟩ := hin
  have hy : pos.2.toNat < st.map_tiles.length := by
    obtain ⟨hlen, _⟩ := hwf
    omega
  have hx : pos.1.toNat < (st.map_tiles.getD pos.2.toNat []).length := by
    rw [rowlen_of_WF hwf hy]
    omega
  unfold Game._set
  rw [if_neg (not_not_intro ⟨hx0, hxw, hy0, hyh⟩)]
  unfold GState.rawAt at hraw
  rw [← hraw, set_getD_self hx, set_getD_self hy]

theorem set_self_of_raw {g : Game T} {st : GState} {pos : Int × Int}
    (hwf : g.WF st) (hin : g.InBounds pos)
    (hraw : st.rawAt pos.2.toNat pos.1.toNat = g.gids g.empty_tile) :
    g.set st pos g.empty_tile = st := by
  unfold Game.set
  rw [_set_set, _set_self_of_raw hwf hin hraw]

theorem update_hero_pos_self {s : GState} {v : Int × Int} (h : s.hero_pos = v) :
    ({ s with hero_pos := v } : GState) = s := by
  subst h
  rfl

theorem eq_update_map_tiles {s X : GState} (h1 : X.hero_pos = s.hero_pos)
    (h2 : X.hero_vel = s.hero_vel) (h3 : X.diamonds = s.diamonds)
    (h4 : X.dead = s.dead) (h5 : X.falling = s.falling) :
    ({ s with map_tiles := X.map_tiles } : GState) = X := by
  cases s
  cases X
  simp_all

theorem mem_allPositions {W H : Nat} {q : Int × Int}
    (h : 0 ≤ q.1 ∧ q.1 < (W : Int) ∧ 0 ≤ q.2 ∧ q.2 < (H : Int)) :
    q ∈ allPositions W H := by
  obtain ⟨a, b⟩ := q
  obtain ⟨h1, h2, h3, h4⟩ := h
  have hxW : a.toNat < W := by omega
  have hyH : b.toNat < H := by omega
  unfold allPositions
  rw [List.mem_flatMap]
  refine ⟨a.toNat, List.mem_range.mpr hxW, ?_⟩
  rw [List.mem_map]
  refine ⟨b.toNat, List.mem_range.mpr hyH, ?_⟩
  simp only [Prod.mk.injEq, Int.ofNat_eq_natCast]
  refine ⟨by omega, by omega⟩

theorem get_ne_of_raw_prop {g : Game T} {st : GState} {t0 : T} (hwf : g.WF st)
    (hno : ∀ row ∈ st.map_tiles, ∀ v ∈ row, v ≠ 0 → g.tileOf v ≠ t0)
    (hne : t0 ≠ g.empty_tile) (hnd : t0 ≠ g.default_tile)
    (q : Int × Int) : g.get st q ≠ t0 := by
  unfold Game.get
  split
  · exact fun h => hnd h.symm
  · rename_i hb
    rw [not_not] at hb
    obtain ⟨hx0, hxw, hy0, hyh⟩ := hb
    have hy : q.2.toNat < st.map_tiles.length := by
      obtain ⟨hlen, _⟩ := hwf
      omega
    have hx : q.1.toNat < (st.map_tiles.getD q.2.toNat []).length := by
      rw [rowlen_of_WF hwf hy]
      omega
    simp only
    split
    · exact fun h => hne h.symm
    · rename_i h0
      refine hno (st.map_tiles.getD q.2.toNat []) ?_ _ ?_ h0
      · rw [List.getD_eq_getElem?_getD, List.getElem?_eq_getElem hy]
        exact List.getElem_mem hy
      · unfold GState.rawAt
        rw [List.getD_eq_getElem?_getD (st.map_tiles.getD q.2.toNat []),
          List.getElem?_eq_getElem hx]
        exact List.getElem_mem hx

theorem initGameStep_pos [DecidableEq T] {g : Game T} {s : GState} {q : Int × Int}
    (h : g.get s q = g.hero_tile) :
    initGameStep g s q = g.set { s with hero_pos := q } q g.empty_tile := by
  unfold initGameStep
  rw [if_pos h]

theorem initGameStep_neg [DecidableEq T] {g : Game T} {s : GState} {q : Int × Int}
    (h : g.get s q ≠ g.hero_tile) : initGameStep g s q = s := by
  unfold initGameStep
  rw [if_neg h]

theorem init_game_foldl_id [DecidableEq T] {g : Game T} :
    ∀ (l : List (Int × Int)) (s : GState),
      (∀ q ∈ l, g.get s q ≠ g.hero_tile) →
      l.foldl (initGameStep g) s = s := by
  intro l
  induction l with
  | nil => intro s _; rfl
  | cons q l ih =>
      intro s h
      rw [List.foldl_cons, initGameStep_neg (h q (List.mem_cons_self _ _))]
      exact ih s fun p hp => h p (List.mem_cons_of_mem _ hp)

theorem init_game_foldl_unique [DecidableEq T] {g : Game T} {p : Int × Int}
    (hne : g.hero_tile ≠ g.empty_tile) (hE0 : g.gids g.empty_tile ≠ 0)
    (hErt : g.tileOf (g.gids g.empty_tile) = g.empty_tile) (hin : g.InBounds p) :
    ∀ (l : List (Int × Int)) (s : GState), g.WF s →
      (∀ q ∈ l, (g.get s q = g.hero_tile ↔ q = p)) → p ∈ l →
      l.foldl (initGameStep g) s = g.set { s with hero_pos := p } p g.empty_tile := by
  intro l
  induction l with
  | nil => intro s _ _ hp; cases hp
  | cons q l ih =>
      intro s hwf hiff hp
      by_cases hqp : q = p
      · subst hqp
        rw [List.foldl_cons, initGameStep_pos ((hiff q (List.mem_cons_self _ _)).mpr rfl)]
        apply init_game_foldl_id
        intro r hr
        have hwf' : g.WF ({ s with hero_pos := q } : GState) := hwf
        by_cases hrq : r = q
        · subst hrq
          rw [get_set_self hwf' hin hE0 hErt]
          exact fun h => hne h.symm
        · rw [get_set_ne hrq]
          have hmap : g.get ({ s with hero_pos := q } : GState) r = g.get s r := rfl
          rw [hmap]
          exact fun h => hrq ((hiff r (List.mem_cons_of_mem _ hr)).mp h)
      · rw [List.foldl_cons,
          initGameStep_neg (fun h => hqp ((hiff q (List.mem_cons_self _ _)).mp h))]
        refine ih s hwf (fun q' hq' => hiff q' (List.mem_cons_of_mem _ hq')) ?_
        rcases List.mem_cons.mp hp with h | h
        · exact absurd h.symm hqp
        · exact h

/-- C2: for every level geometry and every position with a negative
coordinate or an x-coordinate ≥ the level width or a y-coordinate ≥ the
level height, `get` returns the configured default tile. -/
theorem C2_out_of_bounds_get_default (g : Game T) (st : GState) (pos : Int × Int)
    (h : pos.1 < 0 ∨ pos.2 < 0 ∨ (g.level_width : Int) ≤ pos.1 ∨
      (g.level_height : Int) ≤ pos.2) :
    g.get st pos = g.default_tile := by
  unfold Game.get
  rw [if_pos]
  unfold Game.InBounds
  omega

/-- Witness for C2 at a concrete geometry and position. -/
theorem C2_out_of_bounds_get_default_witness :
    ((-1 : Int), (0 : Int)).1 < 0 ∧ natGame.get natState (-1, 0) = natGame.default_tile :=
  ⟨by decide, C2_out_of_bounds_get_default natGame natState (-1, 0) (by decide)⟩

/-- C3: for every position outside the level bounds and every tile, `set`
is a no-op: the state (in particular every in-bounds cell) is unchanged. -/
theorem C3_out_of_bounds_set_noop (g : Game T) (st : GState) (pos : Int × Int) (t : T)
    (h : pos.1 < 0 ∨ pos.2 < 0 ∨ (g.level_width : Int) ≤ pos.1 ∨
      (g.level_height : Int) ≤ pos.2) :
    g.set st pos t = st ∧ ∀ q, g.get (g.set st pos t) q = g.get st q := by
  have hnb : ¬ g.InBounds pos := by unfold Game.InBounds; omega
  have hs : g.set st pos t = st := by
    unfold Game.set Game._set
    rw [if_pos hnb, if_pos hnb]
  exact ⟨hs, fun q => by rw [hs]⟩

/-- Witness for C3 at a concrete geometry, position and tile. -/
theorem C3_out_of_bounds_set_noop_witness :
    (2, 1).1 ≥ (natGame.level_width : Int) ∧
      (natGame.set natState (2, 1) 9 = natState ∧
        ∀ q, natGame.get (natGame.set natState (2, 1) 9) q = natGame.get natState q) :=
  ⟨by decide, C3_out_of_bounds_set_noop natGame natState (2, 1) 9 (by decide)⟩

/-- C1: for every in-bounds position and every tile present in the
level's GID map (its GID is non-zero and the tileset lookup inverts the
GID table on it), `set` performs two raw writes — first the empty tile's
GID, then the target tile's GID — after which `get` returns that tile;
and calling `set` twice in a row yields the same grid as calling it
once. -/
theorem C1_set_two_raw_writes_get_back_idempotent (g : Game T) (st : GState)
    (pos : Int × Int) (t : T) (hwf : g.WF st) (hin : g.InBounds pos)
    (h0 : g.gids t ≠ 0) (hrt : g.tileOf (g.gids t) = t) :
    g.set st pos t = g._set (g._set st pos g.empty_tile) pos t ∧
    g.get (g.set st pos t) pos = t ∧
    g.set (g.set st pos t) pos t = g.set st pos t :=
  ⟨rfl, get_set_self hwf hin h0 hrt, set_set st pos t t⟩

/-- Witness for C1 at a concrete game, state, position and tile. -/
theorem C1_set_two_raw_writes_get_back_idempotent_witness :
    natGame.InBounds (0, 1) ∧
      (natGame.set natState (0, 1) 2 =
          natGame._set (natGame._set natState (0, 1) natGame.empty_tile) (0, 1) 2 ∧
        natGame.get (natGame.set natState (0, 1) 2) (0, 1) = 2 ∧
        natGame.set (natGame.set natState (0, 1) 2) (0, 1) 2 =
          natGame.set natState (0, 1) 2) :=
  ⟨by decide, C1_set_two_raw_writes_get_back_idempotent natGame natState (0, 1) 2
    (by decide) (by decide) (by decide) (by decide)⟩

/-- C4: in a reachable state — the live grid holds no hero marker and the
raw cell at the hero's position holds the empty tile's GID —
`save_position` leaves the live state unchanged, and `save_position`
followed by `load_position` reproduces exactly the pre-save state, the
hero's position re-derived from the saved hero marker by `init_game`. -/
theorem C4_save_load_round_trip [DecidableEq T] (g : Game T) (st : GState)
    (hwf : g.WF st) (hin : g.InBounds st.hero_pos)
    (hH0 : g.gids g.hero_tile ≠ 0) (hHrt : g.tileOf (g.gids g.hero_tile) = g.hero_tile)
    (hE0 : g.gids g.empty_tile ≠ 0) (hErt : g.tileOf (g.gids g.empty_tile) = g.empty_tile)
    (hne : g.hero_tile ≠ g.empty_tile) (hnd : g.hero_tile ≠ g.default_tile)
    (hcell : st.rawAt st.hero_pos.2.toNat st.hero_pos.1.toNat = g.gids g.empty_tile)
    (hnohero : ∀ row ∈ st.map_tiles, ∀ v ∈ row, v ≠ 0 → g.tileOf v ≠ g.hero_tile) :
    (g.save_position st).1 = st ∧
    g.load_position (g.save_position st).1 (some (g.save_position st).2) = st := by
  have hback : g.set (g.set st st.hero_pos g.hero_tile) st.hero_pos g.empty_tile = st := by
    rw [set_set]
    exact set_self_of_raw hwf hin hcell
  have hsave1 : (g.save_position st).1 = st := by
    unfold Game.save_position
    simp only [set_hero_pos]
    exact hback
  refine ⟨hsave1, ?_⟩
  have hsaved : (g.save_position st).2 = (g.set st st.hero_pos g.hero_tile).map_tiles := rfl
  rw [hsave1, hsaved]
  show g.init_game
      { st with map_tiles := (g.set st st.hero_pos g.hero_tile).map_tiles } = st
  have hstM : ({ st with map_tiles := (g.set st st.hero_pos g.hero_tile).map_tiles } : GState) =
      g.set st st.hero_pos g.hero_tile :=
    eq_update_map_tiles (set_hero_pos g st st.hero_pos g.hero_tile)
      (set_hero_vel g st st.hero_pos g.hero_tile)
      (set_diamonds g st st.hero_pos g.hero_tile)
      (set_dead g st st.hero_pos g.hero_tile)
      (set_falling g st st.hero_pos g.hero_tile)
  rw [hstM]
  unfold Game.init_game
  have hwf1 : g.WF (g.set st st.hero_pos g.hero_tile) := WF_set _ _ hwf
  have hiff : ∀ q ∈ allPositions g.level_width g.level_height,
      (g.get (g.set st st.hero_pos g.hero_tile) q = g.hero_tile ↔ q = st.hero_pos) := by
    intro q _
    constructor
    · intro h
      by_contra hqp
      rw [get_set_ne hqp] at h
      exact get_ne_of_raw_prop hwf hnohero hne hnd q h
    · intro h
      subst h
      exact get_set_self hwf hin hH0 hHrt
  rw [init_game_foldl_unique hne hE0 hErt hin _ _ hwf1 hiff (mem_allPositions hin)]
  rw [update_hero_pos_self (set_hero_pos g st st.hero_pos g.hero_tile)]
  exact hback

/-- Witness for C4 at a concrete WinColl game and state. -/
theorem C4_save_load_round_trip_witness :
    (∀ row ∈ wState.map_tiles, ∀ v ∈ row, v ≠ 0 → wGame.tileOf v ≠ wGame.hero_tile) ∧
      ((wGame.save_position wState).1 = wState ∧
        wGame.load_position (wGame.save_position wState).1
          (some (wGame.save_position wState).2) = wState) :=
  ⟨by decide, C4_save_load_round_trip wGame wState (by decide) (by decide) (by decide)
    (by decide) (by decide) (by decide) (by decide) (by decide) (by decide) (by decide)⟩

/-- C6: in WinColl a move whose destination is a rock is legal exactly
when the move is horizontal (zero vertical component) and the cell two
steps from the hero in the move direction is empty; every vertical
approach to a rock and every blocked push is rejected by `can_move`. -/
theorem C6_rock_push_legality (W H : Nat) (gids : WTile → Nat) (tileOf : Nat → WTile)
    (st : GState) (v : Int × Int)
    (hrock : (wincollGame W H gids tileOf).get st
        (st.hero_pos.1 + v.1, st.hero_pos.2 + v.2) = WTile.ROCK) :
    WincollGame.can_move (wincollGame W H gids tileOf) st v = true ↔
      v.2 = 0 ∧ (wincollGame W H gids tileOf).get st
        (st.hero_pos.1 + v.1 * 2, st.hero_pos.2 + v.2 * 2) = WTile.EMPTY := by
  unfold WincollGame.can_move
  simp [hrock]

/-- Witness for C6: the hero at `(0, 1)` moving down onto the rock at
`(0, 2)` is a vertical approach, so `can_move` rejects it. -/
theorem C6_rock_push_legality_witness :
    wGame.get wStateC6 (wStateC6.hero_pos.1 + (0, 1).1, wStateC6.hero_pos.2 + (0, 1).2) =
        WTile.ROCK ∧
      (WincollGame.can_move wGame wStateC6 (0, 1) = true ↔
        ((0, 1) : Int × Int).2 = 0 ∧
          wGame.get wStateC6 (wStateC6.hero_pos.1 + (0, 1).1 * 2,
            wStateC6.hero_pos.2 + (0, 1).2 * 2) = WTile.EMPTY) :=
  ⟨by decide, C6_rock_push_legality 3 3 wgids wtileOf wStateC6 (0, 1) (by decide)⟩

theorem try_move_eq [DecidableEq T] (g : Game T) (st : GState) (d : Int × Int) :
    g.try_move st d =
      if g.get st (st.hero_pos.1 + d.1, st.hero_pos.2 + d.2) ≠ g.default_tile then
        (true, g.set st (st.hero_pos.1 + d.1, st.hero_pos.2 + d.2) g.empty_tile)
      else (false, st) := rfl

theorem try_move_false [DecidableEq T] {g : Game T} {st : GState} {d : Int × Int}
    (h : (g.try_move st d).1 = false) : g.try_move st d = (false, st) := by
  by_cases hc : g.get st (st.hero_pos.1 + d.1, st.hero_pos.2 + d.2) ≠ g.default_tile
  · rw [try_move_eq, if_pos hc] at h
    cases h
  · rw [try_move_eq, if_neg hc]

theorem try_move_hero_vel [DecidableEq T] (g : Game T) (st : GState) (d : Int × Int) :
    (g.try_move st d).2.hero_vel = st.hero_vel := by
  rw [try_move_eq]
  split
  · exact set_hero_vel ..
  · rfl

theorem handle_joysticks_foldl_unit :
    ∀ (axes : List (ℚ × ℚ)) (d : Int × Int),
      (d.1 = -1 ∨ d.1 = 0 ∨ d.1 = 1) → (d.2 = -1 ∨ d.2 = 0 ∨ d.2 = 1) →
      (((axes.foldl (fun d a =>
          let dx := if a.1 < -(1/2 : ℚ) then (-1 : Int) else if a.1 > 1/2 then 1 else d.1
          let dy := if a.2 < -(1/2 : ℚ) then (-1 : Int) else if a.2 > 1/2 then 1 else d.2
          (dx, dy)) d).1 = -1 ∨
        (axes.foldl (fun d a =>
          let dx := if a.1 < -(1/2 : ℚ) then (-1 : Int) else if a.1 > 1/2 then 1 else d.1
          let dy := if a.2 < -(1/2 : ℚ) then (-1 : Int) else if a.2 > 1/2 then 1 else d.2
          (dx, dy)) d).1 = 0 ∨
        (axes.foldl (fun d a =>
          let dx := if a.1 < -(1/2 : ℚ) then (-1 : Int) else if a.1 > 1/2 then 1 else d.1
          let dy := if a.2 < -(1/2 : ℚ) then (-1 : Int) else if a.2 > 1/2 then 1 else d.2
          (dx, dy)) d).1 = 1) ∧
       ((axes.foldl (fun d a =>
          let dx := if a.1 < -(1/2 : ℚ) then (-1 : Int) else if a.1 > 1/2 then 1 else d.1
          let dy := if a.2 < -(1/2 : ℚ) then (-1 : Int) else if a.2 > 1/2 then 1 else d.2
          (dx, dy)) d).2 = -1 ∨
        (axes.foldl (fun d a =>
          let dx := if a.1 < -(1/2 : ℚ) then (-1 : Int) else if a.1 > 1/2 then 1 else d.1
          let dy := if a.2 < -(1/2 : ℚ) then (-1 : Int) else if a.2 > 1/2 then 1 else d.2
          (dx, dy)) d).2 = 0 ∨
        (axes.foldl (fun d a =>
          let dx := if a.1 < -(1/2 : ℚ) then (-1 : Int) else if a.1 > 1/2 then 1 else d.1
          let dy := if a.2 < -(1/2 : ℚ) then (-1 : Int) else if a.2 > 1/2 then 1 else d.2
          (dx, dy)) d).2 = 1))
  | [], d, h1, h2 => ⟨h1, h2⟩
  | a :: axes, d, h1, h2 => by
      rw [List.foldl_cons]
      refine handle_joysticks_foldl_unit axes _ ?_ ?_
      · dsimp only
        split
        · exact Or.inl rfl
        · split
          · exact Or.inr (Or.inr rfl)
          · exact h1
      · dsimp only
        split
        · exact Or.inl rfl
        · split
          · exact Or.inr (Or.inr rfl)
          · exact h2

theorem handle_joysticks_unit (axes : List (ℚ × ℚ)) :
    ((Game.handle_joysticks axes).1 = -1 ∨ (Game.handle_joysticks axes).1 = 0 ∨
      (Game.handle_joysticks axes).1 = 1) ∧
    ((Game.handle_joysticks axes).2 = -1 ∨ (Game.handle_joysticks axes).2 = 0 ∨
      (Game.handle_joysticks axes).2 = 1) := by
  unfold Game.handle_joysticks
  exact handle_joysticks_foldl_unit axes (0, 0) (Or.inr (Or.inl rfl))
    (Or.inr (Or.inl rfl))

theorem startMove_eq [DecidableEq T] (g : Game T) (st : GState) (moving : Bool)
    (frame moves : Nat) (dx dy : Int) :
    g.startMove st moving frame moves dx dy =
      if moving = false ∧ (dx, dy) ≠ (0, 0) then
        (fun attempt : (Int × Int) × GState =>
          if attempt.1 ≠ (0, 0) then
            ({ attempt.2 with hero_vel := attempt.1 }, true, 0, moves + 1)
          else (attempt.2, moving, frame, moves))
        (if dx ≠ 0 then
          if (g.try_move st (dx, 0)).1 then (((dx, 0) : Int × Int), (g.try_move st (dx, 0)).2)
          else if dy ≠ 0 then
            if (g.try_move (g.try_move st (dx, 0)).2 (0, dy)).1 then
              (((0, dy) : Int × Int), (g.try_move (g.try_move st (dx, 0)).2 (0, dy)).2)
            else (((0, 0) : Int × Int), (g.try_move (g.try_move st (dx, 0)).2 (0, dy)).2)
          else (((0, 0) : Int × Int), (g.try_move st (dx, 0)).2)
        else if dy ≠ 0 then
          if (g.try_move st (0, dy)).1 then (((0, dy) : Int × Int), (g.try_move st (0, dy)).2)
          else (((0, 0) : Int × Int), (g.try_move st (0, dy)).2)
        else (((0, 0) : Int × Int), st))
      else (st, moving, frame, moves) := rfl

/-- C10 counterexample: in the newest engine revision
(`Game.flash_background` in `game.py`) the flash is computed from the
*current* background colour, not from the configured default: starting
from a mid-fade colour `(192, 192, 192)` over default `(32, 32, 32)` the
flashed colour is `(255, 255, 255)`, not `default + 160 = (192, 192,
192)`. -/
theorem C10_flash_background_counterexample :
    (Game.flash_background ⟨⟨192, 192, 192⟩, ⟨32, 32, 32⟩⟩).background_colour ≠
      ⟨min 255 (32 + 160), min 255 (32 + 160), min 255 (32 + 160)⟩ := by
  decide

/-- C10 amended: `Screen.flash_background` (`screen.py`) sets each channel
to the configured default background colour's channel plus 160, clamped at
255, independent of the current background colour; `Game.flash_background`
(`game.py`, the newest revision) instead adds 160 to each channel of the
*current* background colour, clamped at 255, which agrees with the claim
only when the current colour is the default. -/
theorem C10_flash_background_amended (s : ScreenState) :
    (∀ c : Colour,
      (Screen.flash_background { s with background_colour := c }).background_colour =
        ⟨min 255 (s.default_background_colour.r + 160),
         min 255 (s.default_background_colour.g + 160),
         min 255 (s.default_background_colour.b + 160)⟩) ∧
    (Game.flash_background s).background_colour =
      ⟨min 255 (s.background_colour.r + 160), min 255 (s.background_colour.g + 160),
       min 255 (s.background_colour.b + 160)⟩ ∧
    (s.background_colour = s.default_background_colour →
      (Game.flash_background s).background_colour =
        ⟨min 255 (s.default_background_colour.r + 160),
         min 255 (s.default_background_colour.g + 160),
         min 255 (s.default_background_colour.b + 160)⟩) := by
  refine ⟨fun c => rfl, rfl, fun h => ?_⟩
  simp only [Game.flash_background, h]

/-- Witness for C10's amended statement at a concrete screen state whose
current colour is at the default. -/
theorem C10_flash_background_amended_witness :
    (⟨⟨32, 32, 32⟩, ⟨32, 32, 32⟩⟩ : ScreenState).background_colour =
        (⟨⟨32, 32, 32⟩, ⟨32, 32, 32⟩⟩ : ScreenState).default_background_colour ∧
      (Game.flash_background ⟨⟨32, 32, 32⟩, ⟨32, 32, 32⟩⟩).background_colour =
        ⟨min 255 (32 + 160), min 255 (32 + 160), min 255 (32 + 160)⟩ :=
  ⟨rfl, (C10_flash_background_amended ⟨⟨32, 32, 32⟩, ⟨32, 32, 32⟩⟩).2.2 rfl⟩

theorem lexLeb_total : ∀ a b, lexLeb a b = true ∨ lexLeb b a = true
  | [], _ => Or.inl rfl
  | _ :: _, [] => Or.inr rfl
  | x :: a, y :: b => by
      unfold lexLeb
      simp only [Bool.or_eq_true, Bool.and_eq_true, decide_eq_true_eq]
      rcases Nat.lt_trichotomy x.toNat y.toNat with h | h | h
      · exact Or.inl (Or.inl h)
      · rcases lexLeb_total a b with hr | hr
        · exact Or.inl (Or.inr ⟨h, hr⟩)
        · exact Or.inr (Or.inr ⟨h.symm, hr⟩)
      · exact Or.inr (Or.inl h)

theorem lexLeb_trans : ∀ a b c, lexLeb a b = true → lexLeb b c = true →
    lexLeb a c = true
  | [], _, _, _, _ => rfl
  | _ :: _, [], _, h, _ => by cases h
  | _ :: _, _ :: _, [], _, h => by cases h
  | x :: a, y :: b, z :: c, h1, h2 => by
      unfold lexLeb at h1 h2 ⊢
      simp only [Bool.or_eq_true, Bool.and_eq_true, decide_eq_true_eq] at h1 h2 ⊢
      rcases h1 with h1 | ⟨h1e, h1r⟩
      · rcases h2 with h2 | ⟨h2e, h2r⟩
        · exact Or.inl (by omega)
        · exact Or.inl (by omega)
      · rcases h2 with h2 | ⟨h2e, h2r⟩
        · exact Or.inl (by omega)
        · exact Or.inr ⟨by omega, lexLeb_trans a b c h1r h2r⟩

/-- C8: level discovery yields exactly the non-hidden regular files with
the `.tmx` extension, sorted lexicographically by name (`level1` before
`level10` before `level2`), the order fixing the 1-based numbering; an
empty result is a fatal error through the diagnostics helper. -/
theorem C8_level_discovery (entries : List DirEntry) :
    List.Sorted nameLe (discoverLevels entries) ∧
    (discoverLevels entries).Perm ((entries.filter isLevelFile).map DirEntry.name) ∧
    discoverLevels
        [⟨"level2.tmx", true⟩, ⟨".hidden.tmx", true⟩, ⟨"level10.tmx", true⟩,
         ⟨"readme.txt", true⟩, ⟨"level1.tmx", true⟩, ⟨"img.png", false⟩] =
      ["level1.tmx", "level10.tmx", "level2.tmx"] ∧
    (loadLevels entries = die "Could not find any levels" ↔
      entries.filter isLevelFile = []) := by
  have hlen : (discoverLevels entries).length = (entries.filter isLevelFile).length := by
    unfold discoverLevels
    rw [(List.perm_insertionSort _ _).length_eq, List.length_map]
  haveI : IsTotal String nameLe := ⟨fun a b => lexLeb_total a.toList b.toList⟩
  haveI : IsTrans String nameLe := ⟨fun a b c => lexLeb_trans a.toList b.toList c.toList⟩
  refine ⟨List.sorted_insertionSort _ _, List.perm_insertionSort _ _, by decide, ?_⟩
  unfold loadLevels
  by_cases h0 : (discoverLevels entries).length = 0
  · rw [if_pos h0]
    constructor
    · intro _
      rw [← List.length_eq_zero]
      omega
    · intro _
      rfl
  · rw [if_neg h0]
    constructor
    · intro h
      unfold die at h
      cases h
    · intro hf
      exfalso
      apply h0
      rw [hlen, hf]
      rfl

/-- C5: when the hero is idle and both axes are requested, the horizontal
move is tried first via `try_move`; if it is legal the vertical request is
ignored entirely for that tick, otherwise the vertical move is tried; the
resulting velocity is one of zero, `(dx, 0)` or `(0, dy)` — axis-aligned,
never diagonal — and the requested displacements produced by
`handle_player_controls` are always unit. -/
theorem C5_one_axis_horizontal_first [DecidableEq T] (g : Game T) (st : GState)
    (frame moves : Nat) (dx dy : Int) (hdx : dx ≠ 0) (hdy : dy ≠ 0)
    (hvel : st.hero_vel = (0, 0)) :
    ((g.try_move st (dx, 0)).1 = true →
      g.startMove st false frame moves dx dy =
        ({ (g.try_move st (dx, 0)).2 with hero_vel := (dx, 0) }, true, 0, moves + 1)) ∧
    ((g.try_move st (dx, 0)).1 = false → (g.try_move st (0, dy)).1 = true →
      g.startMove st false frame moves dx dy =
        ({ (g.try_move st (0, dy)).2 with hero_vel := (0, dy) }, true, 0, moves + 1)) ∧
    ((g.try_move st (dx, 0)).1 = false → (g.try_move st (0, dy)).1 = false →
      g.startMove st false frame moves dx dy = (st, false, frame, moves)) ∧
    (∀ moving : Bool,
      (g.startMove st moving frame moves dx dy).1.hero_vel = (0, 0) ∨
      (g.startMove st moving frame moves dx dy).1.hero_vel = (dx, 0) ∨
      (g.startMove st moving frame moves dx dy).1.hero_vel = (0, dy)) ∧
    (∀ moving : Bool,
      (g.startMove st moving frame moves dx dy).1.hero_vel.1 = 0 ∨
      (g.startMove st moving frame moves dx dy).1.hero_vel.2 = 0) ∧
    (∀ (left right up down : Bool) (axes : List (ℚ × ℚ)),
      ((Game.handle_player_controls left right up down axes).1 = -1 ∨
        (Game.handle_player_controls left right up down axes).1 = 0 ∨
        (Game.handle_player_controls left right up down axes).1 = 1) ∧
      ((Game.handle_player_controls left right up down axes).2 = -1 ∨
        (Game.handle_player_controls left right up down axes).2 = 0 ∨
        (Game.handle_player_controls left right up down axes).2 = 1)) := by
  have hne00 : ((dx, dy) : Int × Int) ≠ (0, 0) := by
    intro h
    rw [Prod.mk.injEq] at h
    exact hdx h.1
  have hdx0 : ((dx, 0) : Int × Int) ≠ (0, 0) := by
    intro h
    rw [Prod.mk.injEq] at h
    exact hdx h.1
  have h0dy : ((0, dy) : Int × Int) ≠ (0, 0) := by
    intro h
    rw [Prod.mk.injEq] at h
    exact hdy h.2
  have part1 : (g.try_move st (dx, 0)).1 = true →
      g.startMove st false frame moves dx dy =
        ({ (g.try_move st (dx, 0)).2 with hero_vel := (dx, 0) }, true, 0, moves + 1) := by
    intro h1
    rw [startMove_eq, if_pos ⟨rfl, hne00⟩, if_pos hdx, h1, if_pos rfl]
    dsimp only
    rw [if_pos hdx0]
  have part2 : (g.try_move st (dx, 0)).1 = false → (g.try_move st (0, dy)).1 = true →
      g.startMove st false frame moves dx dy =
        ({ (g.try_move st (0, dy)).2 with hero_vel := (0, dy) }, true, 0, moves + 1) := by
    intro h1 h2
    rw [startMove_eq, if_pos ⟨rfl, hne00⟩, if_pos hdx, try_move_false h1]
    dsimp only
    rw [if_neg (fun h => Bool.noConfusion h), if_pos hdy, h2, if_pos rfl]
    dsimp only
    rw [if_pos h0dy]
  have part3 : (g.try_move st (dx, 0)).1 = false → (g.try_move st (0, dy)).1 = false →
      g.startMove st false frame moves dx dy = (st, false, frame, moves) := by
    intro h1 h2
    rw [startMove_eq, if_pos ⟨rfl, hne00⟩, if_pos hdx, try_move_false h1]
    dsimp only
    rw [if_neg (fun h => Bool.noConfusion h), if_pos hdy, try_move_false h2]
    dsimp only
    rw [if_neg (fun h => Bool.noConfusion h)]
    dsimp only
    rw [if_neg (fun h => (h : ¬ _) rfl)]
  have part4 : ∀ moving : Bool,
      (g.startMove st moving frame moves dx dy).1.hero_vel = (0, 0) ∨
      (g.startMove st moving frame moves dx dy).1.hero_vel = (dx, 0) ∨
      (g.startMove st moving frame moves dx dy).1.hero_vel = (0, dy) := by
    intro moving
    cases moving with
    | true =>
        rw [startMove_eq, if_neg (fun h => Bool.noConfusion h.1)]
        exact Or.inl hvel
    | false =>
        by_cases h1 : (g.try_move st (dx, 0)).1 = true
        · rw [part1 h1]
          exact Or.inr (Or.inl rfl)
        · rw [Bool.not_eq_true] at h1
          by_cases h2 : (g.try_move st (0, dy)).1 = true
          · rw [part2 h1 h2]
            exact Or.inr (Or.inr rfl)
          · rw [Bool.not_eq_true] at h2
            rw [part3 h1 h2]
            exact Or.inl hvel
  refine ⟨part1, part2, part3, part4, ?_, ?_⟩
  · intro moving
    rcases part4 moving with h | h | h
    · rw [h]
      exact Or.inl rfl
    · rw [h]
      exact Or.inr rfl
    · rw [h]
      exact Or.inl rfl
  · intro left right up down axes
    unfold Game.handle_player_controls
    dsimp only
    split
    · exact handle_joysticks_unit axes
    · constructor
      · cases left <;> cases right <;> simp
      · cases up <;> cases down <;> simp

/-- Witness for C5: requesting the diagonal `(1, 1)` from an idle hero
yields an axis-aligned velocity. -/
theorem C5_one_axis_horizontal_first_witness :
    (1 : Int) ≠ 0 ∧ natState.hero_vel = (0, 0) ∧
      ∀ moving : Bool,
        (natGame.startMove natState moving 0 0 1 1).1.hero_vel.1 = 0 ∨
        (natGame.startMove natState moving 0 0 1 1).1.hero_vel.2 = 0 :=
  ⟨by decide, rfl,
    (C5_one_axis_horizontal_first natGame natState 0 0 1 1 (by decide) (by decide)
      rfl).2.2.2.2.1⟩

theorem unlockStep_WF {g : Game WTile} {s : GState} (hwf : g.WF s) (q : Int × Int) :
    g.WF (WincollGame.unlockStep g s q) := by
  unfold WincollGame.unlockStep
  split
  · exact WF_set _ _ hwf
  · exact hwf

theorem unlock_foldl_WF (g : Game WTile) :
    ∀ (l : List (Int × Int)) (s : GState), g.WF s →
      g.WF (l.foldl (WincollGame.unlockStep g) s)
  | [], _, hwf => hwf
  | q :: l, s, hwf => by
      rw [List.foldl_cons]
      exact unlock_foldl_WF g l _ (unlockStep_WF hwf q)

theorem unlockStep_diamonds (g : Game WTile) (s : GState) (q : Int × Int) :
    (WincollGame.unlockStep g s q).diamonds = s.diamonds := by
  unfold WincollGame.unlockStep
  split
  · exact set_diamonds ..
  · rfl

theorem unlock_foldl_diamonds (g : Game WTile) :
    ∀ (l : List (Int × Int)) (s : GState),
      (l.foldl (WincollGame.unlockStep g) s).diamonds = s.diamonds
  | [], _ => rfl
  | q :: l, s => by
      rw [List.foldl_cons, unlock_foldl_diamonds g l, unlockStep_diamonds]

theorem unlockStep_preserves {g : Game WTile} {s : GState} {p : Int × Int}
    (hD0 : g.gids WTile.DIAMOND ≠ 0)
    (hDrt : g.tileOf (g.gids WTile.DIAMOND) = WTile.DIAMOND)
    (hwf : g.WF s) (hp : g.get s p ≠ WTile.SAFE) (q : Int × Int) :
    g.get (WincollGame.unlockStep g s q) p ≠ WTile.SAFE := by
  unfold WincollGame.unlockStep
  by_cases hq : g.get s q = WTile.SAFE
  · rw [if_pos hq]
    by_cases hpq : p = q
    · subst hpq
      have hb : g.InBounds p := by
        by_contra hnb
        rw [get_out hnb] at hq
        rw [get_out hnb] at hp
        exact hp hq
      rw [get_set_self hwf hb hD0 hDrt]
      intro h
      cases h
    · rw [get_set_ne hpq]
      exact hp
  · rw [if_neg hq]
    exact hp

theorem unlock_foldl_preserves (g : Game WTile) {p : Int × Int}
    (hD0 : g.gids WTile.DIAMOND ≠ 0)
    (hDrt : g.tileOf (g.gids WTile.DIAMOND) = WTile.DIAMOND) :
    ∀ (l : List (Int × Int)) (s : GState), g.WF s → g.get s p ≠ WTile.SAFE →
      g.get (l.foldl (WincollGame.unlockStep g) s) p ≠ WTile.SAFE
  | [], _, _, hp => hp
  | q :: l, s, hwf, hp => by
      rw [List.foldl_cons]
      exact unlock_foldl_preserves g hD0 hDrt l _ (unlockStep_WF hwf q)
        (unlockStep_preserves hD0 hDrt hwf hp q)

theorem unlock_foldl_no_safe (g : Game WTile)
    (hD0 : g.gids WTile.DIAMOND ≠ 0)
    (hDrt : g.tileOf (g.gids WTile.DIAMOND) = WTile.DIAMOND)
    (hdef : g.default_tile ≠ WTile.SAFE) :
    ∀ (l : List (Int × Int)) (s : GState), g.WF s → ∀ q ∈ l,
      g.get (l.foldl (WincollGame.unlockStep g) s) q ≠ WTile.SAFE
  | [], _, _, q, hq => absurd hq (List.not_mem_nil q)
  | r :: l, s, hwf, q, hq => by
      rw [List.foldl_cons]
      rcases List.mem_cons.mp hq with rfl | hq'
      · refine unlock_foldl_preserves g hD0 hDrt l _ (unlockStep_WF hwf q) ?_
        unfold WincollGame.unlockStep
        by_cases h : g.get s q = WTile.SAFE
        · rw [if_pos h]
          by_cases hb : g.InBounds q
          · rw [get_set_self hwf hb hD0 hDrt]
            intro hc
            cases hc
          · rw [get_out hb]
            exact hdef
        · rw [if_neg h]
          exact h
      · exact unlock_foldl_no_safe g hD0 hDrt hdef l _ (unlockStep_WF hwf r) q hq'

theorem unlockStep_keeps_diamond {g : Game WTile} {s : GState} {p : Int × Int}
    (hp : g.get s p = WTile.DIAMOND) (r : Int × Int) :
    g.get (WincollGame.unlockStep g s r) p = WTile.DIAMOND := by
  unfold WincollGame.unlockStep
  by_cases hr : g.get s r = WTile.SAFE
  · rw [if_pos hr]
    by_cases hpr : p = r
    · subst hpr
      rw [hp] at hr
      cases hr
    · rw [get_set_ne hpr]
      exact hp
  · rw [if_neg hr]
    exact hp

theorem unlock_foldl_keeps_diamond {g : Game WTile} {p : Int × Int} :
    ∀ (l : List (Int × Int)) (s : GState), g.get s p = WTile.DIAMOND →
      g.get (l.foldl (WincollGame.unlockStep g) s) p = WTile.DIAMOND
  | [], _, hp => hp
  | r :: l, s, hp => by
      rw [List.foldl_cons]
      exact unlock_foldl_keeps_diamond l _ (unlockStep_keeps_diamond hp r)

theorem unlockStep_keeps_safe {g : Game WTile} {s : GState} {p r : Int × Int}
    (hp : g.get s p = WTile.SAFE) (hpr : p ≠ r) :
    g.get (WincollGame.unlockStep g s r) p = WTile.SAFE := by
  unfold WincollGame.unlockStep
  by_cases hr : g.get s r = WTile.SAFE
  · rw [if_pos hr, get_set_ne hpr]
    exact hp
  · rw [if_neg hr]
    exact hp

theorem unlock_foldl_converts (g : Game WTile)
    (hD0 : g.gids WTile.DIAMOND ≠ 0)
    (hDrt : g.tileOf (g.gids WTile.DIAMOND) = WTile.DIAMOND)
    (hdef : g.default_tile ≠ WTile.SAFE) :
    ∀ (l : List (Int × Int)) (s : GState), g.WF s → ∀ p ∈ l,
      g.get s p = WTile.SAFE →
      g.get (l.foldl (WincollGame.unlockStep g) s) p = WTile.DIAMOND
  | [], _, _, p, hp, _ => absurd hp (List.not_mem_nil p)
  | r :: l, s, hwf, p, hp, hsafe => by
      rw [List.foldl_cons]
      by_cases hpr : p = r
      · subst hpr
        have hb : g.InBounds p := by
          by_contra hnb
          rw [get_out hnb] at hsafe
          exact hdef hsafe
        have hstep : g.get (WincollGame.unlockStep g s p) p = WTile.DIAMOND := by
          unfold WincollGame.unlockStep
          rw [if_pos hsafe, get_set_self hwf hb hD0 hDrt]
        exact unlock_foldl_keeps_diamond l _ hstep
      · rcases List.mem_cons.mp hp with h | h
        · exact absurd h hpr
        · exact unlock_foldl_converts g hD0 hDrt hdef l _ (unlockStep_WF hwf r) p h
            (unlockStep_keeps_safe hsafe hpr)

theorem allPositions_nodup (W H : Nat) : (allPositions W H).Nodup := by
  unfold allPositions
  rw [List.nodup_flatMap]
  constructor
  · intro x _
    refine List.Nodup.map ?_ (List.nodup_range H)
    intro y y' h
    rw [Prod.mk.injEq] at h
    simp only [Int.ofNat_eq_natCast] at h
    omega
  · refine (List.pairwise_lt_range W).imp ?_
    intro a b hab p hpa hpb
    rw [List.mem_map] at hpa hpb
    obtain ⟨y, _, rfl⟩ := hpa
    obtain ⟨y', _, h⟩ := hpb
    rw [Prod.mk.injEq] at h
    simp only [Int.ofNat_eq_natCast] at h
    omega

theorem initPhysicsStep_count {g : Game WTile} {s : GState} (q : Int × Int) :
    WincollGame.initPhysicsStep g s q =
      (if g.get s q = WTile.DIAMOND ∨ g.get s q = WTile.SAFE then
        { s with diamonds := s.diamonds + 1 }
      else if g.get s q = WTile.HERO then
        g.set { s with hero_pos := q } q WTile.EMPTY
      else s) := rfl

theorem init_physics_foldl_count (g : Game WTile) :
    ∀ (l : List (Int × Int)) (s st0 : GState), g.WF s → l.Nodup →
      (∀ q ∈ l, g.get s q = g.get st0 q) →
      (l.foldl (WincollGame.initPhysicsStep g) s).diamonds =
        s.diamonds + (l.countP (fun q =>
          decide (g.get st0 q = WTile.DIAMOND ∨ g.get st0 q = WTile.SAFE)) : Int)
  | [], s, st0, _, _, _ => by
      rw [List.foldl_nil, List.countP_nil]
      omega
  | q :: l, s, st0, hwf, hnd, hinv => by
      obtain ⟨hql, hnd'⟩ := List.nodup_cons.mp hnd
      have hq0 : g.get s q = g.get st0 q := hinv q (List.mem_cons_self _ _)
      rw [List.foldl_cons, initPhysicsStep_count q]
      by_cases hds : g.get s q = WTile.DIAMOND ∨ g.get s q = WTile.SAFE
      · rw [if_pos hds]
        have hcount : List.countP (fun q =>
            decide (g.get st0 q = WTile.DIAMOND ∨ g.get st0 q = WTile.SAFE)) (q :: l) =
            List.countP (fun q =>
              decide (g.get st0 q = WTile.DIAMOND ∨ g.get st0 q = WTile.SAFE)) l + 1 := by
          rw [List.countP_cons]
          simp [← hq0, hds]
        rw [hcount, init_physics_foldl_count g l { s with diamonds := s.diamonds + 1 } st0
          hwf hnd' (fun p hp => hinv p (List.mem_cons_of_mem _ hp))]
        dsimp only
        omega
      · have hcount : List.countP (fun q =>
            decide (g.get st0 q = WTile.DIAMOND ∨ g.get st0 q = WTile.SAFE)) (q :: l) =
            List.countP (fun q =>
              decide (g.get st0 q = WTile.DIAMOND ∨ g.get st0 q = WTile.SAFE)) l := by
          rw [List.countP_cons]
          simp [← hq0, hds]
        rw [if_neg hds, hcount]
        by_cases hh : g.get s q = WTile.HERO
        · rw [if_pos hh]
          have hwf' : g.WF (g.set ({ s with hero_pos := q } : GState) q WTile.EMPTY) :=
            WF_set _ _ hwf
          have hinv' : ∀ p ∈ l,
              g.get (g.set ({ s with hero_pos := q } : GState) q WTile.EMPTY) p =
                g.get st0 p := by
            intro p hp
            have hpq' : p ≠ q := fun h => hql (h ▸ hp)
            rw [get_set_ne hpq']
            exact hinv p (List.mem_cons_of_mem _ hp)
          rw [init_physics_foldl_count g l _ st0 hwf' hnd' hinv', set_diamonds]
        · rw [if_neg hh]
          rw [init_physics_foldl_count g l s st0 hwf hnd'
            (fun p hp => hinv p (List.mem_cons_of_mem _ hp))]

theorem do_move_eq (g : Game WTile) (st : GState) :
    WincollGame.do_move g st =
      g.set
        (if g.get st (st.hero_pos.1 + st.hero_vel.1, st.hero_pos.2 + st.hero_vel.2) =
            WTile.DIAMOND then
          { st with diamonds := st.diamonds - 1 }
        else if g.get st (st.hero_pos.1 + st.hero_vel.1, st.hero_pos.2 + st.hero_vel.2) =
            WTile.KEY then
          WincollGame.unlock g st
        else if g.get st (st.hero_pos.1 + st.hero_vel.1, st.hero_pos.2 + st.hero_vel.2) =
            WTile.ROCK then
          g.set st (st.hero_pos.1 + st.hero_vel.1 + st.hero_vel.1,
            st.hero_pos.2 + st.hero_vel.2 + st.hero_vel.2) WTile.ROCK
        else st)
        (st.hero_pos.1 + st.hero_vel.1, st.hero_pos.2 + st.hero_vel.2) WTile.EMPTY := rfl

/-- C7: in WinColl, completing a move onto a key converts every safe on
the board into a diamond within the same tick — each cell that read safe
before the move reads diamond after it, and no safe remains — and leaves
the diamond counter unchanged; the counter is initialised by
`init_physics` as the count of diamond-plus-safe cells and a move onto a
diamond decrements it. -/
theorem C7_key_unlock (W H : Nat) (gids : WTile → Nat) (tileOf : Nat → WTile)
    (st : GState) (hwf : (wincollGame W H gids tileOf).WF st)
    (hE0 : gids WTile.EMPTY ≠ 0) (hErt : tileOf (gids WTile.EMPTY) = WTile.EMPTY)
    (hD0 : gids WTile.DIAMOND ≠ 0)
    (hDrt : tileOf (gids WTile.DIAMOND) = WTile.DIAMOND) :
    ((wincollGame W H gids tileOf).get st
        (st.hero_pos.1 + st.hero_vel.1, st.hero_pos.2 + st.hero_vel.2) = WTile.KEY →
      (WincollGame.do_move (wincollGame W H gids tileOf) st).diamonds = st.diamonds ∧
      (∀ q, (wincollGame W H gids tileOf).get st q = WTile.SAFE →
        (wincollGame W H gids tileOf).get
          (WincollGame.do_move (wincollGame W H gids tileOf) st) q = WTile.DIAMOND) ∧
      ∀ q, (wincollGame W H gids tileOf).get
          (WincollGame.do_move (wincollGame W H gids tileOf) st) q ≠ WTile.SAFE) ∧
    ((wincollGame W H gids tileOf).get st
        (st.hero_pos.1 + st.hero_vel.1, st.hero_pos.2 + st.hero_vel.2) = WTile.DIAMOND →
      (WincollGame.do_move (wincollGame W H gids tileOf) st).diamonds =
        st.diamonds - 1) ∧
    (WincollGame.init_physics (wincollGame W H gids tileOf) st).diamonds =
      ((allPositions W H).countP (fun q =>
        decide ((wincollGame W H gids tileOf).get st q = WTile.DIAMOND ∨
          (wincollGame W H gids tileOf).get st q = WTile.SAFE)) : Int) := by
  refine ⟨?_, ?_, ?_⟩
  · intro hkey
    have h1 : (wincollGame W H gids tileOf).get st
        (st.hero_pos.1 + st.hero_vel.1, st.hero_pos.2 + st.hero_vel.2) ≠
          WTile.DIAMOND := by
      rw [hkey]
      intro h
      cases h
    have hwfu : (wincollGame W H gids tileOf).WF
        (WincollGame.unlock (wincollGame W H gids tileOf) st) := by
      unfold WincollGame.unlock
      exact unlock_foldl_WF _ _ _ hwf
    refine ⟨?_, ?_, ?_⟩
    · rw [do_move_eq, if_neg h1, if_pos hkey, set_diamonds]
      unfold WincollGame.unlock
      exact unlock_foldl_diamonds _ _ _
    · intro q hsafe
      rw [do_move_eq, if_neg h1, if_pos hkey]
      have hq : q ≠ (st.hero_pos.1 + st.hero_vel.1, st.hero_pos.2 + st.hero_vel.2) := by
        intro h
        rw [h, hkey] at hsafe
        cases hsafe
      rw [get_set_ne hq]
      have hb : (wincollGame W H gids tileOf).InBounds q := by
        by_contra hnb
        rw [get_out hnb] at hsafe
        exact WTile.noConfusion hsafe
      unfold WincollGame.unlock
      exact unlock_foldl_converts (wincollGame W H gids tileOf) hD0 hDrt
        (fun h => WTile.noConfusion h) _ _ hwf q (mem_allPositions hb) hsafe
    · intro q
      rw [do_move_eq, if_neg h1, if_pos hkey]
      by_cases hq : q = (st.hero_pos.1 + st.hero_vel.1, st.hero_pos.2 + st.hero_vel.2)
      · rw [hq]
        by_cases hb : (wincollGame W H gids tileOf).InBounds
            (st.hero_pos.1 + st.hero_vel.1, st.hero_pos.2 + st.hero_vel.2)
        · rw [get_set_self hwfu hb hE0 hErt]
          intro h
          cases h
        · rw [get_out hb]
          intro h
          cases h
      · rw [get_set_ne hq]
        by_cases hb : (wincollGame W H gids tileOf).InBounds q
        · unfold WincollGame.unlock
          exact unlock_foldl_no_safe (wincollGame W H gids tileOf) hD0 hDrt
            (fun h => WTile.noConfusion h) _ _ hwf q (mem_allPositions hb)
        · rw [get_out hb]
          intro h
          cases h
  · intro hdia
    rw [do_move_eq, if_pos hdia, set_diamonds]
  · unfold WincollGame.init_physics
    have hwf0 : (wincollGame W H gids tileOf).WF
        ({ st with diamonds := 0 } : GState) := hwf
    rw [init_physics_foldl_count _ _ _ st hwf0 (allPositions_nodup _ _)
      (fun q _ => rfl)]
    dsimp only [wincollGame]
    omega

theorem initGameStep_WF [DecidableEq T] {g : Game T} {s : GState} (hwf : g.WF s)
    (q : Int × Int) : g.WF (initGameStep g s q) := by
  unfold initGameStep
  split
  · exact WF_set _ _ hwf
  · exact hwf

theorem initGameStep_preserves [DecidableEq T] {g : Game T} {s : GState}
    {p : Int × Int} (hne : g.hero_tile ≠ g.empty_tile) (hE0 : g.gids g.empty_tile ≠ 0)
    (hErt : g.tileOf (g.gids g.empty_tile) = g.empty_tile)
    (hwf : g.WF s) (hp : g.get s p ≠ g.hero_tile) (q : Int × Int) :
    g.get (initGameStep g s q) p ≠ g.hero_tile := by
  unfold initGameStep
  by_cases hq : g.get s q = g.hero_tile
  · rw [if_pos hq]
    by_cases hpq : p = q
    · subst hpq
      have hb : g.InBounds p := by
        by_contra hnb
        rw [get_out hnb] at hq
        rw [get_out hnb] at hp
        exact hp hq
      have hwf' : g.WF ({ s with hero_pos := p } : GState) := hwf
      rw [get_set_self hwf' hb hE0 hErt]
      exact fun h => hne h.symm
    · rw [get_set_ne hpq]
      have hmap : g.get ({ s with hero_pos := q } : GState) p = g.get s p := rfl
      rw [hmap]
      exact hp
  · rw [if_neg hq]
    exact hp

theorem initGameStep_self [DecidableEq T] {g : Game T} {s : GState}
    (hne : g.hero_tile ≠ g.empty_tile) (hE0 : g.gids g.empty_tile ≠ 0)
    (hErt : g.tileOf (g.gids g.empty_tile) = g.empty_tile)
    (hdef : g.hero_tile ≠ g.default_tile) (hwf : g.WF s) (q : Int × Int) :
    g.get (initGameStep g s q) q ≠ g.hero_tile := by
  unfold initGameStep
  by_cases hq : g.get s q = g.hero_tile
  · rw [if_pos hq]
    by_cases hb : g.InBounds q
    · have hwf' : g.WF ({ s with hero_pos := q } : GState) := hwf
      rw [get_set_self hwf' hb hE0 hErt]
      exact fun h => hne h.symm
    · rw [get_out hb]
      exact fun h => hdef h.symm
  · rw [if_neg hq]
    exact hq

theorem init_game_foldl_keep [DecidableEq T] {g : Game T} {p : Int × Int}
    (hne : g.hero_tile ≠ g.empty_tile) (hE0 : g.gids g.empty_tile ≠ 0)
    (hErt : g.tileOf (g.gids g.empty_tile) = g.empty_tile) :
    ∀ (l : List (Int × Int)) (s : GState), g.WF s → g.get s p ≠ g.hero_tile →
      g.get (l.foldl (initGameStep g) s) p ≠ g.hero_tile
  | [], _, _, hp => hp
  | q :: l, s, hwf, hp => by
      rw [List.foldl_cons]
      exact init_game_foldl_keep hne hE0 hErt l _ (initGameStep_WF hwf q)
        (initGameStep_preserves hne hE0 hErt hwf hp q)

theorem init_game_foldl_no_hero [DecidableEq T] {g : Game T}
    (hne : g.hero_tile ≠ g.empty_tile) (hE0 : g.gids g.empty_tile ≠ 0)
    (hErt : g.tileOf (g.gids g.empty_tile) = g.empty_tile)
    (hdef : g.hero_tile ≠ g.default_tile) :
    ∀ (l : List (Int × Int)) (s : GState), g.WF s → ∀ q ∈ l,
      g.get (l.foldl (initGameStep g) s) q ≠ g.hero_tile
  | [], _, _, q, hq => absurd hq (List.not_mem_nil q)
  | r :: l, s, hwf, q, hq => by
      rw [List.foldl_cons]
      rcases List.mem_cons.mp hq with rfl | hq'
      · exact init_game_foldl_keep hne hE0 hErt l _ (initGameStep_WF hwf q)
          (initGameStep_self hne hE0 hErt hdef hwf q)
      · exact init_game_foldl_no_hero hne hE0 hErt hdef l _ (initGameStep_WF hwf r)
          q hq'

theorem set_no_hero_away {g : Game WTile} {s : GState} {p : Int × Int} {t : WTile}
    (hwf : g.WF s) (ht : t ≠ WTile.HERO) (h0 : g.gids t ≠ 0)
    (hrt : g.tileOf (g.gids t) = t) (hdef : g.default_tile ≠ WTile.HERO)
    (hno : ∀ q, q ≠ p → g.get s q ≠ WTile.HERO) (w : Int × Int) :
    ∀ q, q ≠ p → g.get (g.set s w t) q ≠ WTile.HERO := by
  intro q hq
  by_cases hqw : q = w
  · subst hqw
    by_cases hb : g.InBounds q
    · rw [get_set_self hwf hb h0 hrt]
      exact ht
    · rw [get_out hb]
      exact hdef
  · rw [get_set_ne hqw]
    exact hno q hq

theorem falling_update_hero_pos (s : GState) :
    (if s.falling = false then { s with falling := true } else s).hero_pos =
      s.hero_pos := by
  split <;> rfl

theorem falling_update_get {g : Game WTile} (s : GState) (q : Int × Int) :
    g.get (if s.falling = false then { s with falling := true } else s) q =
      g.get s q := by
  split <;> rfl

theorem falling_update_WF {g : Game WTile} {s : GState} (hwf : g.WF s) :
    g.WF (if s.falling = false then { s with falling := true } else s) := by
  split
  · exact hwf
  · exact hwf

theorem fall_hero_pos (g : Game WTile) (st : GState) (o n : Int × Int) :
    (WincollGame.fall g st o n).hero_pos = st.hero_pos := by
  unfold WincollGame.fall
  rw [falling_update_hero_pos, set_hero_pos, set_hero_pos]
  split <;> rfl

theorem fall_WF {g : Game WTile} {st : GState} (hwf : g.WF st) (o n : Int × Int) :
    g.WF (WincollGame.fall g st o n) := by
  unfold WincollGame.fall
  apply falling_update_WF
  apply WF_set
  apply WF_set
  split
  · exact hwf
  · exact hwf

theorem fall_no_hero {g : Game WTile} {st : GState} {p : Int × Int}
    (hE0 : g.gids WTile.EMPTY ≠ 0) (hErt : g.tileOf (g.gids WTile.EMPTY) = WTile.EMPTY)
    (hR0 : g.gids WTile.ROCK ≠ 0) (hRrt : g.tileOf (g.gids WTile.ROCK) = WTile.ROCK)
    (hdef : g.default_tile ≠ WTile.HERO) (hwf : g.WF st)
    (hno : ∀ q, q ≠ p → g.get st q ≠ WTile.HERO) (o n : Int × Int) :
    ∀ q, q ≠ p → g.get (WincollGame.fall g st o n) q ≠ WTile.HERO := by
  intro q hq
  unfold WincollGame.fall
  rw [falling_update_get]
  have hdwf : g.WF (if g.get st (n.1, n.2 + 1) = WTile.HERO then
      { st with dead := true } else st) := by
    split
    · exact hwf
    · exact hwf
  have hdno : ∀ r, r ≠ p → g.get (if g.get st (n.1, n.2 + 1) = WTile.HERO then
      { st with dead := true } else st) r ≠ WTile.HERO := by
    intro r hr
    split
    · exact hno r hr
    · exact hno r hr
  exact set_no_hero_away (WF_set _ _ hdwf) (fun h => WTile.noConfusion h) hR0 hRrt hdef
    (set_no_hero_away hdwf (fun h => WTile.noConfusion h) hE0 hErt hdef hdno o) n q hq

theorem physStep_inv {g : Game WTile} {p : Int × Int}
    (hE0 : g.gids WTile.EMPTY ≠ 0) (hErt : g.tileOf (g.gids WTile.EMPTY) = WTile.EMPTY)
    (hR0 : g.gids WTile.ROCK ≠ 0) (hRrt : g.tileOf (g.gids WTile.ROCK) = WTile.ROCK)
    (hdef : g.default_tile ≠ WTile.HERO) {acc : GState × Bool}
    (hwf : g.WF acc.1) (hpos : acc.1.hero_pos = p)
    (hno : ∀ q, q ≠ p → g.get acc.1 q ≠ WTile.HERO) (r : Int × Int) :
    g.WF (WincollGame.physStep g acc r).1 ∧
    (WincollGame.physStep g acc r).1.hero_pos = p ∧
    ∀ q, q ≠ p → g.get (WincollGame.physStep g acc r).1 q ≠ WTile.HERO := by
  obtain ⟨st, nf⟩ := acc
  dsimp only at hwf hpos hno
  unfold WincollGame.physStep
  dsimp only
  split
  · split
    · exact ⟨fall_WF hwf _ _, (fall_hero_pos ..).trans hpos,
        fall_no_hero hE0 hErt hR0 hRrt hdef hwf hno _ _⟩
    · split
      · split
        · exact ⟨fall_WF hwf _ _, (fall_hero_pos ..).trans hpos,
            fall_no_hero hE0 hErt hR0 hRrt hdef hwf hno _ _⟩
        · split
          · exact ⟨fall_WF hwf _ _, (fall_hero_pos ..).trans hpos,
              fall_no_hero hE0 hErt hR0 hRrt hdef hwf hno _ _⟩
          · exact ⟨hwf, hpos, hno⟩
      · exact ⟨hwf, hpos, hno⟩
  · exact ⟨hwf, hpos, hno⟩

theorem physics_foldl_inv {g : Game WTile} {p : Int × Int}
    (hE0 : g.gids WTile.EMPTY ≠ 0) (hErt : g.tileOf (g.gids WTile.EMPTY) = WTile.EMPTY)
    (hR0 : g.gids WTile.ROCK ≠ 0) (hRrt : g.tileOf (g.gids WTile.ROCK) = WTile.ROCK)
    (hdef : g.default_tile ≠ WTile.HERO) :
    ∀ (l : List (Int × Int)) (acc : GState × Bool),
      g.WF acc.1 → acc.1.hero_pos = p →
      (∀ q, q ≠ p → g.get acc.1 q ≠ WTile.HERO) →
      g.WF (l.foldl (WincollGame.physStep g) acc).1 ∧
      (l.foldl (WincollGame.physStep g) acc).1.hero_pos = p ∧
      ∀ q, q ≠ p → g.get (l.foldl (WincollGame.physStep g) acc).1 q ≠ WTile.HERO
  | [], _, hwf, hpos, hno => ⟨hwf, hpos, hno⟩
  | r :: l, acc, hwf, hpos, hno => by
      rw [List.foldl_cons]
      obtain ⟨h1, h2, h3⟩ := physStep_inv hE0 hErt hR0 hRrt hdef hwf hpos hno r
      exact physics_foldl_inv hE0 hErt hR0 hRrt hdef l _ h1 h2 h3

theorem cond_unfalling_hero_pos (c : Prop) [Decidable c] (s : GState) :
    (if c then { s with falling := false } else s).hero_pos = s.hero_pos := by
  split <;> rfl

theorem cond_unfalling_get {g : Game WTile} (c : Prop) [Decidable c] (s : GState)
    (q : Int × Int) :
    g.get (if c then { s with falling := false } else s) q = g.get s q := by
  split <;> rfl

theorem cond_unfalling_WF {g : Game WTile} (c : Prop) [Decidable c] {s : GState}
    (hwf : g.WF s) : g.WF (if c then { s with falling := false } else s) := by
  split
  · exact hwf
  · exact hwf

theorem erase_hero_no_hero {g : Game WTile} {s2 : GState} {p : Int × Int}
    (hE0 : g.gids WTile.EMPTY ≠ 0)
    (hErt : g.tileOf (g.gids WTile.EMPTY) = WTile.EMPTY)
    (hdef : g.default_tile ≠ WTile.HERO) (hwf : g.WF s2) (hpos : s2.hero_pos = p)
    (hno : ∀ q, q ≠ p → g.get s2 q ≠ WTile.HERO) :
    ∀ q, g.get (g.set s2 s2.hero_pos WTile.EMPTY) q ≠ WTile.HERO := by
  intro q
  by_cases hq : q = s2.hero_pos
  · by_cases hb : g.InBounds s2.hero_pos
    · rw [hq, get_set_self hwf hb hE0 hErt]
      exact fun h => WTile.noConfusion h
    · rw [hq, get_out hb]
      exact hdef
  · rw [get_set_ne hq]
    rw [hpos] at hq
    exact hno q hq

/-- Witness for C7 at a concrete WinColl game and state (one diamond and
one safe on the board, so the counter is initialised to two). -/
theorem C7_key_unlock_witness :
    wGame.WF wState ∧
      (WincollGame.init_physics wGame wState).diamonds =
        ((allPositions 3 3).countP (fun q =>
          decide (wGame.get wState q = WTile.DIAMOND ∨
            wGame.get wState q = WTile.SAFE)) : Int) :=
  ⟨by decide, (C7_key_unlock 3 3 wgids wtileOf wState (by decide) (by decide)
    (by decide) (by decide) (by decide)).2.2⟩

/-- C9: the hero tile never persists in the live grid: `init_game` erases
every hero marker found in the level data; `save_position` writes the
marker only transiently, erasing it before returning; and WinColl's
`do_physics` writes it for collision detection and always erases it again
before returning, including on the path that sets the dead flag. -/
theorem C9_hero_marker_transient (W H : Nat) (gids : WTile → Nat)
    (tileOf : Nat → WTile) (st : GState)
    (hwf : (wincollGame W H gids tileOf).WF st)
    (hE0 : gids WTile.EMPTY ≠ 0) (hErt : tileOf (gids WTile.EMPTY) = WTile.EMPTY)
    (hR0 : gids WTile.ROCK ≠ 0) (hRrt : tileOf (gids WTile.ROCK) = WTile.ROCK) :
    (∀ q, (wincollGame W H gids tileOf).get
        ((wincollGame W H gids tileOf).init_game st) q ≠ WTile.HERO) ∧
    ((∀ q, (wincollGame W H gids tileOf).get st q ≠ WTile.HERO) →
      ∀ q, (wincollGame W H gids tileOf).get
        ((wincollGame W H gids tileOf).save_position st).1 q ≠ WTile.HERO) ∧
    ((∀ q, (wincollGame W H gids tileOf).get st q ≠ WTile.HERO) →
      ∀ q, (wincollGame W H gids tileOf).get
        (WincollGame.do_physics (wincollGame W H gids tileOf) st) q ≠ WTile.HERO) := by
  have hne : (wincollGame W H gids tileOf).hero_tile ≠
      (wincollGame W H gids tileOf).empty_tile := fun h => WTile.noConfusion h
  have hdef : (wincollGame W H gids tileOf).hero_tile ≠
      (wincollGame W H gids tileOf).default_tile := fun h => WTile.noConfusion h
  have hdef' : (wincollGame W H gids tileOf).default_tile ≠ WTile.HERO :=
    fun h => WTile.noConfusion h
  refine ⟨?_, ?_, ?_⟩
  · intro q
    unfold Game.init_game
    by_cases hb : (wincollGame W H gids tileOf).InBounds q
    · exact init_game_foldl_no_hero hne hE0 hErt hdef _ _ hwf q (mem_allPositions hb)
    · rw [get_out hb]
      exact fun h => hdef' h
  · intro hnone q
    have hE0' : (wincollGame W H gids tileOf).gids
        (wincollGame W H gids tileOf).empty_tile ≠ 0 := hE0
    have hErt' : (wincollGame W H gids tileOf).tileOf
        ((wincollGame W H gids tileOf).gids (wincollGame W H gids tileOf).empty_tile) =
        (wincollGame W H gids tileOf).empty_tile := hErt
    unfold Game.save_position
    dsimp only
    rw [set_hero_pos]
    by_cases hq : q = st.hero_pos
    · rw [hq]
      by_cases hb : (wincollGame W H gids tileOf).InBounds st.hero_pos
      · rw [get_set_self (WF_set _ _ hwf) hb hE0' hErt']
        exact fun h => WTile.noConfusion h
      · rw [get_out hb]
        exact hdef'
    · rw [get_set_ne hq, get_set_ne hq]
      exact hnone q
  · intro hnone q
    unfold WincollGame.do_physics
    dsimp only
    obtain ⟨h1, h2, h3⟩ := physics_foldl_inv hE0 hErt hR0 hRrt hdef'
      (WincollGame.scanPositions (wincollGame W H gids tileOf).level_width
        (wincollGame W H gids tileOf).level_height)
      ((wincollGame W H gids tileOf).set st st.hero_pos WTile.HERO, false)
      (WF_set _ _ hwf) (set_hero_pos ..)
      (fun r hr => by
        rw [get_set_ne hr]
        exact hnone r)
    exact erase_hero_no_hero hE0 hErt hdef' (cond_unfalling_WF _ h1)
      ((cond_unfalling_hero_pos _ _).trans h2)
      (fun r hr => by
        rw [cond_unfalling_get]
        exact h3 r hr) q

/-- Witness for C9 at a concrete WinColl game and state. -/
theorem C9_hero_marker_transient_witness :
    wGame.WF wState ∧
      ∀ q, wGame.get (wGame.init_game wState) q ≠ WTile.HERO :=
  ⟨by decide, (C9_hero_marker_transient 3 3 wgids wtileOf wState (by decide)
    (by decide) (by decide) (by decide) (by decide)).1⟩

end Chambercourt
